import Mathlib

/-!
Verification development for the CSOPESY-MO2 operating-system emulator.

Shallow embedding of the core subsystems of the repository:
 - the instruction engine (`execute_instruction` in MO2/scheduler.cpp),
 - the per-tick CPU step (`execute_cpu_tick` in MO2/scheduler.cpp),
 - the demand-paging memory manager (MO2/memory_manager.cpp),
 - configuration validation (`isValidConfig` in MO2/main.cpp).

C++ `unordered_map` objects are modelled as association lists with
replace-or-append update; machine integers are modelled as `Nat` / `Int`
with explicit `% 2^w` where wrap-around matters; C++ code that can throw
an uncaught exception (`std::stoi` on unparseable input) or hit undefined
behaviour (out-of-bounds `std::vector` indexing) returns `Option`, `none`
marking the aborted computation.
-/

set_option maxHeartbeats 1600000
set_option maxRecDepth 100000

namespace MO2

/-! ### Association-list primitives (model of `std::unordered_map` access) -/

/-- Lookup in an association list (model of `map.find(k)`). -/
def lookupA {κ ν : Type} [DecidableEq κ] : List (κ × ν) → κ → Option ν
  | [], _ => none
  | (a, v) :: rest, k => if a = k then some v else lookupA rest k

/-- Replace-or-append update (model of `map[k] = v`). -/
def setA {κ ν : Type} [DecidableEq κ] : List (κ × ν) → κ → ν → List (κ × ν)
  | [], k, v => [(k, v)]
  | (a, w) :: rest, k, v =>
      if a = k then (a, v) :: rest else (a, w) :: setA rest k v

/-- Update the element at an index of a list in place, identity when out of range
(model of a guarded `vec[i] = ...`). -/
def updateAt {α : Type} : List α → Nat → (α → α) → List α
  | [], _, _ => []
  | x :: rest, 0, f => f x :: rest
  | x :: rest, n + 1, f => x :: updateAt rest n f

/-! ### Numeric helpers from MO2/scheduler.cpp -/

/-- `clamp_to_uint16` (scheduler.cpp:153): clamp an `int` to `[0, 65535]`. -/
def clamp_to_uint16 (value : Int) : Int :=
  if value < 0 then 0
  else if value > 65535 then 65535
  else value

/-- Numeric value of a run of decimal digit characters. -/
def digitsVal (cs : List Char) : Nat :=
  cs.foldl (fun acc c => acc * 10 + (c.toNat - 48)) 0

/-- Core of `std::stoi` on a token with no leading whitespace (the only way the
repository calls it): optional sign, then a maximal run of decimal digits.
`none` models the `std::invalid_argument` (no digits) and `std::out_of_range`
(outside `int`) exceptions, both uncaught in the repository. -/
def stoiTok (s : String) : Option Int :=
  let signed : List Char → Option Int := fun cs =>
    match cs with
    | c :: _ =>
        if c.isDigit then
          some (Int.ofNat (digitsVal (cs.takeWhile Char.isDigit)))
        else none
    | [] => none
  match s.toList with
  | '-' :: rest => (signed rest).map (fun v => -v)
  | '+' :: rest => signed rest
  | cs => signed cs

/-- `std::stoi` including the range check: out-of-`int`-range throws. -/
def stoi (s : String) : Option Int :=
  match stoiTok s with
  | some v => if v < -2147483648 ∨ v > 2147483647 then none else some v
  | none => none

/-- Hexadecimal digit predicate (`std::isxdigit`). -/
def isHexDigitChar (c : Char) : Bool :=
  c.isDigit || ('a' ≤ c && c ≤ 'f') || ('A' ≤ c && c ≤ 'F')

/-- Value of one hexadecimal digit. -/
def hexDigitVal (c : Char) : Nat :=
  if c.isDigit then c.toNat - 48
  else if 'a' ≤ c && c ≤ 'f' then c.toNat - 87
  else c.toNat - 55

/-- `parse_hex_address` (scheduler.cpp:256): token must be `0x`/`0X` followed by
at least one hex digit; the parsed value is truncated to `uint32_t`.
`std::stoul` throws `std::out_of_range` above `2^64 - 1`, which the function
catches and reports as failure. Returns the parsed address on success. -/
def parse_hex_address (token : String) : Option Nat :=
  match token.toList with
  | '0' :: x :: rest =>
      if (x = 'x' ∨ x = 'X') ∧ rest.length > 0 ∧ rest.all isHexDigitChar then
        let v := rest.foldl (fun acc c => acc * 16 + hexDigitVal c) 0
        if v < 2 ^ 64 then some (v % 2 ^ 32) else none
      else none
  | _ => none

/-! ### Process control block (MO2/scheduler.h) -/

/-- `ProcessState` (scheduler.h:32). -/
inductive ProcessState where
  | ready
  | running
  | sleeping
  | finished
  | memoryViolated
deriving DecidableEq, Repr

/-- `Instruction` (scheduler.h:49): operation name and string operands. -/
structure Instruction where
  op : String
  args : List String
deriving DecidableEq, Repr

/-- `LoopStruct` (scheduler.h:58): one FOR-loop frame. -/
structure LoopStruct where
  loop_start : Nat
  loop_end : Nat
  iterations_remaining : Int
deriving DecidableEq, Repr

/-- `Process` (scheduler.h:71). `memory` is the symbol table
(`unordered_map<string,int>`), `data_memory` the simulated byte memory
(`unordered_map<uint32_t,uint16_t>`), both as association lists. -/
structure Process where
  id : Int
  name : String
  state : ProcessState
  sleep_until_tick : Nat
  total_instructions : Nat
  current_instruction : Nat
  quantum_ticks_left : Nat
  delay_ticks_left : Nat
  memory_size : Nat
  symbol_table_bytes_used : Nat
  memory : List (String × Int)
  data_memory : List (Nat × Nat)
  exec_log : List String
  instructions : List Instruction
  loop_stack : List LoopStruct
deriving DecidableEq, Repr

/-- `Config` (MO2/config.h). `numCPU` is a C++ `int`; the `uint32_t` fields are
modelled as `Nat`. -/
structure Config where
  numCPU : Int
  scheduler : String
  quantumCycles : Nat
  batchProcessFreq : Nat
  minIns : Nat
  maxIns : Nat
  delaysPerExec : Nat
  maxOverallMem : Nat
  memPerFrame : Nat
  minMemPerProc : Nat
  maxMemPerProc : Nat
  replacementPolicy : String
deriving DecidableEq, Repr

/-! ### Instruction-engine helpers (MO2/scheduler.cpp) -/

/-- `log_event` (scheduler.cpp:91): append `[tick] msg`, then cap at 500 lines
by erasing the front. -/
def log_event (log : List String) (tick : Nat) (msg : String) : List String :=
  let l := log ++ ["[" ++ toString tick ++ "] " ++ msg]
  if l.length > 500 then l.drop 1 else l

/-- `ensure_symbol_table_slot` (scheduler.cpp:163): a variable already present
costs nothing; a new one needs `symbol_table_bytes_used + 2 ≤ 64` and is
initialised to 0 after charging the 2 bytes. -/
def ensure_symbol_table_slot (p : Process) (varName : String) : Bool × Process :=
  if (lookupA p.memory varName).isSome then (true, p)
  else if p.symbol_table_bytes_used + 2 > 64 then (false, p)
  else (true, { p with
      symbol_table_bytes_used := p.symbol_table_bytes_used + 2,
      memory := setA p.memory varName 0 })

/-- `get_operand_value` (scheduler.cpp:189). Literal tokens (leading digit, or
`-` followed by at least one character) go through `std::stoi` — which throws
(= `none`) when the character after `-` is not a digit or the value overflows.
Identifier tokens are resolved through the symbol table, auto-creating the
variable when the table has room, else yielding 0 without storing it. -/
def get_operand_value (operand : String) (p : Process) : Option (Int × Process) :=
  match operand.toList with
  | [] => some (0, p)
  | c :: rest =>
      if c.isDigit ∨ (c = '-' ∧ rest.length > 0) then
        match stoi operand with
        | some v => some (v, p)
        | none => none
      else
        match ensure_symbol_table_slot p operand with
        | (true, p1) => some ((lookupA p1.memory operand).getD 0, p1)
        | (false, p1) => some (0, p1)

/-- Identifier-character predicate used by `process_print_message`
(`std::isalnum` or underscore). -/
def isIdentChar (c : Char) : Bool :=
  c.isAlphanum || c = '_'

/-- Worker for `process_print_message` (scheduler.cpp:111): scan for `+name`
patterns; each match auto-declares the variable DIRECTLY in `p.memory`
(value 0, bypassing `ensure_symbol_table_slot`, charging no bytes) and is
replaced by the decimal value. The C++ loop advances `pos` past the
replacement text, which never contains `'+'`, so scanning the remainder of
the message is equivalent. -/
def ppmGo : Nat → List Char → Process → (List Char × Process)
  | 0, cs, p => (cs, p)
  | _ + 1, [], p => ([], p)
  | fuel + 1, c :: rest, p =>
      if c = '+' then
        let nm := rest.takeWhile isIdentChar
        if nm.length > 0 then
          let name := String.mk nm
          let p1 := if (lookupA p.memory name).isSome then p
                    else { p with memory := setA p.memory name 0 }
          let v := (lookupA p1.memory name).getD 0
          let r := ppmGo fuel (rest.drop nm.length) p1
          ((toString v).toList ++ r.1, r.2)
        else
          let r := ppmGo fuel rest p
          ('+' :: r.1, r.2)
      else
        let r := ppmGo fuel rest p
        (c :: r.1, r.2)

/-- `process_print_message` (scheduler.cpp:111). The recursion above is
structural in a fuel argument that starts at the message length; every step
consumes at least one character of the message, so the base fuel case (which
returns the remaining text unscanned) is never reached. -/
def process_print_message (message : String) (p : Process) : String × Process :=
  let r := ppmGo message.toList.length message.toList p
  (String.mk r.1, r.2)

/-- `execute_arithmetic` (scheduler.cpp:229): fewer than 3 operands is a logged
no-op; else the destination gets a symbol-table slot first (full table skips
the operation), then both operands are resolved and the clamped sum or
difference is stored. `none` models an uncaught `std::stoi` exception from an
operand such as `-x`. -/
def execute_arithmetic (p : Process) (ins : Instruction) (is_add : Bool) :
    Option Process :=
  match ins.args with
  | var1 :: a2 :: a3 :: _ =>
      match ensure_symbol_table_slot p var1 with
      | (false, p1) => some p1
      | (true, p1) =>
          match get_operand_value a2 p1 with
          | none => none
          | some (v2, p2) =>
              match get_operand_value a3 p2 with
              | none => none
              | some (v3, p3) =>
                  let result := if is_add then v2 + v3 else v2 - v3
                  some { p3 with
                      memory := setA p3.memory var1 (clamp_to_uint16 result) }
  | _ => some p

/-- The shared tail of `execute_instruction` (scheduler.cpp:860-885): advance
`current_instruction`, run the FOR-loop epilogue on the innermost frame, and
reset the busy-wait delay counter. -/
def advance_and_epilogue (cfg : Config) (p : Process) : Process :=
  let p1 := { p with current_instruction := p.current_instruction + 1 }
  let p2 :=
    match p1.loop_stack.getLast? with
    | none => p1
    | some frame =>
        if p1.current_instruction > frame.loop_end then
          if frame.iterations_remaining > 0 then
            { p1 with
                loop_stack := p1.loop_stack.dropLast ++
                  [LoopStruct.mk frame.loop_start frame.loop_end
                    (frame.iterations_remaining - 1)],
                current_instruction := frame.loop_start }
          else
            { p1 with loop_stack := p1.loop_stack.dropLast }
        else p1
  { p2 with delay_ticks_left := cfg.delaysPerExec }

/-- The `EXEC <op> <args...>` message logged before execution
(scheduler.cpp:679-686). -/
def execMsg (ins : Instruction) : String :=
  "EXEC " ++ ins.op ++ String.join (ins.args.map (fun a => " " ++ a))

/-- The `PRINT` arm of `execute_instruction` (scheduler.cpp:689-699). -/
def exec_print (cfg : Config) (pL : Process) (ins : Instruction) : Option Process :=
  let message := ins.args.headD ("Hello world from " ++ pL.name ++ "!")
  some (advance_and_epilogue cfg (process_print_message message pL).2)

/-- The `DECLARE` arm (scheduler.cpp:700-710): `std::stoi` on the literal runs
BEFORE the symbol-table check; fewer than 2 arguments is a silent skip. -/
def exec_declare (cfg : Config) (pL : Process) (ins : Instruction) : Option Process :=
  match ins.args with
  | varName :: valTok :: _ =>
      match stoi valTok with
      | none => none
      | some value =>
          match ensure_symbol_table_slot pL varName with
          | (true, p1) =>
              some (advance_and_epilogue cfg
                { p1 with memory := setA p1.memory varName (clamp_to_uint16 value) })
          | (false, p1) => some (advance_and_epilogue cfg p1)
  | _ => some (advance_and_epilogue cfg pL)

/-- The `SLEEP` arm (scheduler.cpp:717-725): sets `sleeping`, computes the
wake tick in `uint64` arithmetic, advances `current_instruction` and returns
early (no epilogue, no delay reset); no argument falls through to a plain
advance. -/
def exec_sleep (cfg : Config) (pL : Process) (ins : Instruction)
    (current_tick : Nat) : Option Process :=
  match ins.args with
  | tok :: _ =>
      match stoi tok with
      | none => none
      | some n =>
          some { pL with
              state := ProcessState.sleeping,
              sleep_until_tick := (((current_tick : Int) + n).emod (2 ^ 64)).toNat,
              current_instruction := pL.current_instruction + 1 }
  | [] => some (advance_and_epilogue cfg pL)

/-- The `READ` arm (scheduler.cpp:726-770): a malformed or out-of-bounds
address logs a `FAULT` line and transitions to `memory_violated` WITHOUT
advancing; otherwise the clamped data-memory value (default 0) is stored if
the symbol table permits. -/
def exec_read (cfg : Config) (pL : Process) (ins : Instruction)
    (current_tick : Nat) : Option Process :=
  match ins.args with
  | varName :: addrTok :: _ =>
      match parse_hex_address addrTok with
      | some addr =>
          if addr ≥ pL.memory_size then
            some { pL with
                exec_log := log_event pL.exec_log current_tick
                  ("FAULT: invalid READ address " ++ addrTok),
                state := ProcessState.memoryViolated }
          else
            match ensure_symbol_table_slot pL varName with
            | (true, p1) =>
                let value := (lookupA p1.data_memory addr).getD 0
                some (advance_and_epilogue cfg
                  { p1 with memory := setA p1.memory varName (clamp_to_uint16 value) })
            | (false, p1) => some (advance_and_epilogue cfg p1)
      | none =>
          some { pL with
              exec_log := log_event pL.exec_log current_tick
                ("FAULT: invalid READ address " ++ addrTok),
              state := ProcessState.memoryViolated }
  | _ => some (advance_and_epilogue cfg pL)

/-- The `WRITE` arm (scheduler.cpp:771-810): same address validation as READ;
on success the clamped operand value is stored into `data_memory`
(the operand resolution can throw through `std::stoi`). -/
def exec_write (cfg : Config) (pL : Process) (ins : Instruction)
    (current_tick : Nat) : Option Process :=
  match ins.args with
  | addrTok :: valueTok :: _ =>
      match parse_hex_address addrTok with
      | some addr =>
          if addr ≥ pL.memory_size then
            some { pL with
                exec_log := log_event pL.exec_log current_tick
                  ("FAULT: invalid WRITE address " ++ addrTok),
                state := ProcessState.memoryViolated }
          else
            match get_operand_value valueTok pL with
            | none => none
            | some (raw, p1) =>
                some (advance_and_epilogue cfg
                  { p1 with
                      data_memory := setA p1.data_memory addr
                        (clamp_to_uint16 raw).toNat })
      | none =>
          some { pL with
              exec_log := log_event pL.exec_log current_tick
                ("FAULT: invalid WRITE address " ++ addrTok),
              state := ProcessState.memoryViolated }
  | _ => some (advance_and_epilogue cfg pL)

/-- The `FOR` arm (scheduler.cpp:811-858): parses both arguments with
`std::stoi`, skips past the header when the nesting depth is 3 or the block
exceeds the instruction bounds, else pushes a loop frame and jumps to the
body start (resetting the delay); the `loop_end` computation is `uint32`
arithmetic. All its returns skip the shared epilogue. -/
def exec_for (cfg : Config) (pL : Process) (ins : Instruction) : Option Process :=
  match ins.args with
  | iterTok :: blockTok :: _ =>
      match stoi iterTok with
      | none => none
      | some iterations =>
          match stoi blockTok with
          | none => none
          | some block_size =>
              if pL.loop_stack.length ≥ 3 then
                some { pL with current_instruction := pL.current_instruction + 1 }
              else
                -- C++ locals: loop_start = current_instruction + 1,
                -- loop_end = current_instruction + block_size (uint32), inlined
                if pL.current_instruction + 1 ≥ pL.instructions.length ∨
                    (((pL.current_instruction : Int) + block_size).emod (2 ^ 32)).toNat >
                      pL.instructions.length then
                  some { pL with current_instruction := pL.current_instruction + 1 }
                else
                  some { pL with
                      loop_stack := pL.loop_stack ++
                        [LoopStruct.mk (pL.current_instruction + 1)
                          ((((pL.current_instruction : Int) + block_size).emod (2 ^ 32)).toNat)
                          (iterations - 1)],
                      current_instruction := pL.current_instruction + 1,
                      delay_ticks_left := cfg.delaysPerExec }
  | _ => some { pL with current_instruction := pL.current_instruction + 1 }

/-- The opcode dispatch of `execute_instruction` (scheduler.cpp:688-885), run
on the already-logged process `pL` and the fetched instruction `ins`; one
arm per opcode exactly as the source else-if chain, an unknown opcode
falling through to a plain advance. `none` models an uncaught `std::stoi`
exception (program crash). -/
def execute_instruction_core (cfg : Config) (pL : Process) (ins : Instruction)
    (current_tick : Nat) : Option Process :=
  if ins.op = "PRINT" then exec_print cfg pL ins
  else if ins.op = "DECLARE" then exec_declare cfg pL ins
  else if ins.op = "ADD" then
    (execute_arithmetic pL ins true).map (advance_and_epilogue cfg)
  else if ins.op = "SUBTRACT" then
    (execute_arithmetic pL ins false).map (advance_and_epilogue cfg)
  else if ins.op = "SLEEP" then exec_sleep cfg pL ins current_tick
  else if ins.op = "READ" then exec_read cfg pL ins current_tick
  else if ins.op = "WRITE" then exec_write cfg pL ins current_tick
  else if ins.op = "FOR" then exec_for cfg pL ins
  else some (advance_and_epilogue cfg pL)

/-- `execute_instruction` (scheduler.cpp:659): one step of the instruction
engine. The busy-wait delay and completion checks come first; otherwise the
current instruction is fetched, the `EXEC` line logged, and the opcode
dispatched through `execute_instruction_core`. -/
def execute_instruction (cfg : Config) (p : Process) (current_tick : Nat) :
    Option Process :=
  if p.delay_ticks_left > 0 then
    some { p with delay_ticks_left := p.delay_ticks_left - 1 }
  else if p.current_instruction ≥ p.instructions.length then
    some { p with state := ProcessState.finished }
  else
    let ins := (p.instructions.drop p.current_instruction).headD (Instruction.mk "" [])
    execute_instruction_core cfg
      { p with exec_log := log_event p.exec_log current_tick (execMsg ins) }
      ins current_tick

/-! ### Memory manager (MO2/memory_manager.h, MO2/memory_manager.cpp) -/

/-- `Frame` (memory_manager.h:104). `ownerPid = -1` marks a free frame. -/
structure Frame where
  frameId : Int
  ownerPid : Int
  pageNum : Int
  dirty : Bool
  allocatedTick : Nat
  lastAccessedTick : Nat
deriving DecidableEq, Repr

/-- The memory-manager state: frame pool, per-process page tables
(`pageTables[pid][pageNum] = frameIndex`, `-1` = not resident) and the paging
counters. -/
structure MMState where
  frames : List Frame
  totalFrames : Nat
  pageTables : List (Int × List (Int × Int))
  pagedInCount : Nat
  pagedOutCount : Nat
deriving DecidableEq, Repr

/-- `MemoryManager::initialize` (memory_manager.cpp:19): refuses to build the
pool when `memPerFrame == 0`, else creates `maxOverallMem / memPerFrame` free
frames. Page tables and counters are untouched. -/
def initializeMemoryManager (cfg : Config) (s : MMState) : MMState :=
  if cfg.memPerFrame = 0 then s
  else
    let n := cfg.maxOverallMem / cfg.memPerFrame
    { s with
        totalFrames := n,
        frames := (List.range n).map (fun i => Frame.mk (Int.ofNat i) (-1) (-1) false 0 0) }

/-- `MemoryManager::getPageFromAddress` (memory_manager.cpp:70). -/
def getPageFromAddress (cfg : Config) (addr : Nat) : Int :=
  if cfg.memPerFrame = 0 then 0 else Int.ofNat (addr / cfg.memPerFrame)

/-- Nested lookup `pageTables.find(pid)` then `inner.find(pageNum)` — the
NON-inserting access used by `isPageResident`. -/
def ptLookup (pt : List (Int × List (Int × Int))) (pid pageNum : Int) : Option Int :=
  match lookupA pt pid with
  | none => none
  | some inner => lookupA inner pageNum

/-- `pageTables[pid][pageNum]` as a read: C++ `operator[]` DEFAULT-INSERTS a
missing outer map and a missing entry (value-initialised to 0). Returns the
entry's value and the (possibly grown) tables. -/
def ptGetOrInsert (pt : List (Int × List (Int × Int))) (pid pageNum : Int) :
    Int × List (Int × List (Int × Int)) :=
  match lookupA pt pid with
  | none => (0, setA pt pid [(pageNum, 0)])
  | some inner =>
      match lookupA inner pageNum with
      | none => (0, setA pt pid (setA inner pageNum 0))
      | some v => (v, pt)

/-- `pageTables[pid][pageNum] = v` (insert-or-assign through `operator[]`). -/
def ptSet (pt : List (Int × List (Int × Int))) (pid pageNum v : Int) :
    List (Int × List (Int × Int)) :=
  setA pt pid (setA ((lookupA pt pid).getD []) pageNum v)

/-- `MemoryManager::isPageResident` (memory_manager.cpp:75): `false` when the
pid or page has no entry or the entry is `-1`; on a hit the frame's
`lastAccessedTick` is set to the current tick. `none` models the
out-of-bounds `frames[frameIndex]` access (undefined behaviour). -/
def is_page_resident (cfg : Config) (s : MMState) (pid : Int) (vaddr : Nat)
    (tick : Nat) : Option (Bool × MMState) :=
  let pageNum := getPageFromAddress cfg vaddr
  match ptLookup s.pageTables pid pageNum with
  | none => some (false, s)
  | some frameIndex =>
      if frameIndex = -1 then some (false, s)
      else if 0 ≤ frameIndex ∧ frameIndex.toNat < s.frames.length then
        some (true, { s with
            frames := updateAt s.frames frameIndex.toNat
              (fun f => { f with lastAccessedTick := tick }) })
      else none

/-- `MemoryManager::findFreeFrame` (memory_manager.cpp:113): index of the first
frame with `ownerPid == -1`, else `-1`. The C++ loop bound `totalFrames`
always equals `frames.size()` (both set together in `initialize`). -/
def find_free_frame_go : List Frame → Int → Int
  | [], _ => -1
  | f :: rest, i => if f.ownerPid = -1 then i else find_free_frame_go rest (i + 1)

/-- `MemoryManager::findFreeFrame` over the frame pool. -/
def find_free_frame (frames : List Frame) : Int :=
  find_free_frame_go frames 0

/-- The scanning loop of `MemoryManager::selectVictimFrame`
(memory_manager.cpp:120): strict `<` against the best tick so far, so the
lowest index wins ties; `bestTick` starts at `UINT64_MAX`. -/
def select_victim_go (key : Frame → Nat) :
    List Frame → Int → Int → Nat → Int
  | [], _, victim, _ => victim
  | f :: rest, i, victim, best =>
      if key f < best then select_victim_go key rest (i + 1) i (key f)
      else select_victim_go key rest (i + 1) victim best

/-- `MemoryManager::selectVictimFrame` (memory_manager.cpp:120): LRU compares
`lastAccessedTick`; anything else (including an unrecognised policy) falls to
the FIFO branch comparing `allocatedTick`. -/
def select_victim_frame (cfg : Config) (frames : List Frame) : Int :=
  if cfg.replacementPolicy = "lru" then
    select_victim_go (fun f => f.lastAccessedTick) frames 0 (-1) (2 ^ 64 - 1)
  else
    select_victim_go (fun f => f.allocatedTick) frames 0 (-1) (2 ^ 64 - 1)

/-- `MemoryManager::swapOut` (memory_manager.cpp:146): an occupied victim's
page-table entry is set to `-1` and `pagedOutCount` incremented; a free frame
is left alone. `none` models the out-of-bounds `frames[frameIndex]` access. -/
def swap_out (s : MMState) (frameIndex : Int) : Option MMState :=
  if 0 ≤ frameIndex ∧ frameIndex.toNat < s.frames.length then
    let f := (s.frames.drop frameIndex.toNat).headD (Frame.mk 0 (-1) (-1) false 0 0)
    if f.ownerPid = -1 then some s
    else
      some { s with
          pageTables := ptSet s.pageTables f.ownerPid f.pageNum (-1),
          pagedOutCount := s.pagedOutCount + 1 }
  else none

/-- `MemoryManager::swapIn` (memory_manager.cpp:162): claim the frame for
`(pid, pageNum)`, stamp both ticks with the current tick, map the page to the
frame and increment `pagedInCount`. `none` models the out-of-bounds frame
access. -/
def swap_in (s : MMState) (pid pageNum frameIndex : Int) (tick : Nat) :
    Option MMState :=
  if 0 ≤ frameIndex ∧ frameIndex.toNat < s.frames.length then
    some { s with
        frames := updateAt s.frames frameIndex.toNat
          (fun f => { f with
              ownerPid := pid, pageNum := pageNum, dirty := false,
              allocatedTick := tick, lastAccessedTick := tick }),
        pageTables := ptSet s.pageTables pid pageNum frameIndex,
        pagedInCount := s.pagedInCount + 1 }
  else none

/-- `MemoryManager::requestPage` (memory_manager.cpp:92). Note the guard reads
`pageTables[pid][pageNum]` through `operator[]`, so a missing entry is
DEFAULT-INSERTED with value 0 — which is `≠ -1` and therefore taken as
"already resident". Only a genuine `-1` entry triggers the free-frame search,
possible eviction and swap-in. -/
def request_page (cfg : Config) (s : MMState) (pid : Int) (vaddr : Nat)
    (tick : Nat) : Option MMState :=
  let pageNum := getPageFromAddress cfg vaddr
  let gi := ptGetOrInsert s.pageTables pid pageNum
  let s1 := { s with pageTables := gi.2 }
  if gi.1 ≠ -1 then some s1
  else
    let free := find_free_frame s1.frames
    if free = -1 then
      let victim := select_victim_frame cfg s1.frames
      match swap_out s1 victim with
      | none => none
      | some s2 => swap_in s2 pid pageNum victim tick
    else swap_in s1 pid pageNum free tick

/-- `MemoryManager::allocateMemory` (memory_manager.cpp:39): create
`ceil(size / memPerFrame)` page-table entries, all `-1` (demand paging; no
frame is touched). Always succeeds. -/
def allocate_memory (cfg : Config) (s : MMState) (pid : Int) (size : Nat) : MMState :=
  let numPages := (size + cfg.memPerFrame - 1) / cfg.memPerFrame
  { s with
      pageTables := (List.range numPages).foldl
        (fun pt i => ptSet pt pid (Int.ofNat i) (-1)) s.pageTables }

/-- `MemoryManager::getUsedMemory` (memory_manager.cpp:188): occupied frames
times the frame size. -/
def get_used_memory (cfg : Config) (s : MMState) : Nat :=
  (s.frames.filter (fun f => f.ownerPid ≠ -1)).length * cfg.memPerFrame

/-! ### Per-tick CPU step (`execute_cpu_tick`, MO2/scheduler.cpp:570) -/

/-- The scheduler-visible shared state touched by `execute_cpu_tick`: the core
slots, the three queues and the memory-manager state. The compiled code of
`execute_cpu_tick` never touches the memory manager (the residency check is
commented out behind a TODO), which the embedding makes explicit by carrying
`mm` through unchanged. -/
structure SystemState where
  cores : List (Option Process)
  ready_queue : List Process
  sleeping_queue : List Process
  finished_queue : List Process
  mm : MMState
deriving DecidableEq, Repr

/-- The per-core loop of `execute_cpu_tick` (scheduler.cpp:575-630) threading
the queues: each occupied slot executes one instruction, a process that
became `memory_violated` or `finished` moves to the finished queue, a sleeper
to the sleeping queue; otherwise under RR the quantum is decremented (guarded
at 0) and an expired quantum preempts the process to the ready queue. -/
def tick_cores (cfg : Config) (tick : Nat) :
    List (Option Process) → List Process → List Process → List Process →
    Option (List (Option Process) × List Process × List Process × List Process)
  | [], rq, sq, fq => some ([], rq, sq, fq)
  | none :: rest, rq, sq, fq =>
      (tick_cores cfg tick rest rq sq fq).map
        (fun r => (none :: r.1, r.2.1, r.2.2.1, r.2.2.2))
  | some p :: rest, rq, sq, fq =>
      match execute_instruction cfg p tick with
      | none => none
      | some p1 =>
          if p1.state = ProcessState.memoryViolated then
            (tick_cores cfg tick rest rq sq (fq ++ [p1])).map
              (fun r => (none :: r.1, r.2.1, r.2.2.1, r.2.2.2))
          else if p1.state = ProcessState.finished then
            (tick_cores cfg tick rest rq sq (fq ++ [p1])).map
              (fun r => (none :: r.1, r.2.1, r.2.2.1, r.2.2.2))
          else if p1.state = ProcessState.sleeping then
            (tick_cores cfg tick rest rq (sq ++ [p1]) fq).map
              (fun r => (none :: r.1, r.2.1, r.2.2.1, r.2.2.2))
          else if cfg.scheduler = "rr" then
            let p2 := if p1.quantum_ticks_left > 0 then
                { p1 with quantum_ticks_left := p1.quantum_ticks_left - 1 }
              else p1
            if p2.quantum_ticks_left = 0 then
              (tick_cores cfg tick rest
                  (rq ++ [{ p2 with state := ProcessState.ready }]) sq fq).map
                (fun r => (none :: r.1, r.2.1, r.2.2.1, r.2.2.2))
            else
              (tick_cores cfg tick rest rq sq fq).map
                (fun r => (some p2 :: r.1, r.2.1, r.2.2.1, r.2.2.2))
          else
            (tick_cores cfg tick rest rq sq fq).map
              (fun r => (some p1 :: r.1, r.2.1, r.2.2.1, r.2.2.2))

/-- `execute_cpu_tick` (scheduler.cpp:570): run every core once at the given
tick. The memory-manager state is carried through untouched, mirroring the
compiled code in which the page-fault stall is commented out. -/
def execute_cpu_tick (cfg : Config) (s : SystemState) (tick : Nat) :
    Option SystemState :=
  match tick_cores cfg tick s.cores s.ready_queue s.sleeping_queue s.finished_queue with
  | none => none
  | some r =>
      some { s with
          cores := r.1, ready_queue := r.2.1,
          sleeping_queue := r.2.2.1, finished_queue := r.2.2.2 }

/-- `isValidConfig` (MO2/main.cpp:1300): the only checks initialization makes.
Note neither `replacementPolicy` nor any of the memory fields is examined. -/
def isValidConfig (cfg : Config) : Bool :=
  if cfg.numCPU < 1 then false
  else if cfg.scheduler ≠ "fcfs" ∧ cfg.scheduler ≠ "rr" then false
  else if cfg.quantumCycles < 1 then false
  else if cfg.batchProcessFreq < 1 then false
  else if cfg.minIns < 1 ∨ cfg.maxIns < cfg.minIns then false
  else true

/-! ### Concrete scenarios -/

/-- A single-core FCFS configuration with a 4-frame pool (`64 / 16`) and the
FIFO replacement policy. -/
def fifoConfig : Config :=
  ⟨1, "fcfs", 1, 1, 1, 1, 0, 64, 16, 64, 64, "fifo"⟩

/-- A single-core RR configuration with quantum 3 over the same memory. -/
def rrConfig : Config :=
  ⟨1, "rr", 3, 1, 1, 1, 0, 64, 16, 64, 64, "fifo"⟩

/-- A process as built by the `Process` constructor (scheduler.h:102) and then
dispatched (state RUNNING, quantum as set by `dispatch_processes`). -/
def mkRunning (ins : List Instruction) (memSize quantum : Nat) : Process :=
  ⟨1, "p01", ProcessState.running, 0, ins.length, 0, quantum, 0, memSize, 0,
    [], [], [], ins, []⟩

/-- The memory manager before `initialize`. -/
def emptyMM : MMState := ⟨[], 0, [], 0, 0⟩

/-- Initialized 4-frame pool with pid 1 holding an 80-byte (5-page)
allocation, nothing resident. -/
def allocMM : MMState :=
  allocate_memory fifoConfig (initializeMemoryManager fifoConfig emptyMM) 1 80

/-- One `request_page` step on an optional state (sequencing helper). -/
def mmReq (s : Option MMState) (addr tick : Nat) : Option MMState :=
  s.bind (fun st => request_page fifoConfig st 1 addr tick)

/-- Touch pages 0,1,2,3,4 of pid 1 (addresses spaced `mem_per_frame = 16`
apart) at ticks 1..5, starting from the empty 4-frame pool. -/
def pressureMM : Option MMState :=
  mmReq (mmReq (mmReq (mmReq (mmReq (some allocMM) 0 1) 16 2) 32 3) 48 4) 64 5

/-- Core 0 holds a process about to run `READ x 0x0` whose page 0 is NOT
resident (claim C1's stall situation), under FCFS. -/
def readSys : SystemState :=
  ⟨[some (mkRunning [⟨"READ", ["x", "0x0"]⟩] 64 0)], [], [], [], allocMM⟩

/-- The same stall situation under RR with a fresh quantum of 3. -/
def readSysRR : SystemState :=
  ⟨[some (mkRunning [⟨"READ", ["x", "0x0"]⟩] 64 3)], [], [], [], allocMM⟩

/-- A process with `memory_size = 64` about to run `WRITE 0x100 5`
(claim C4's scenario). -/
def writeProc : Process := mkRunning [⟨"WRITE", ["0x100", "5"]⟩] 64 0

/-- A bystander process (sits in the ready queue during C4's tick). -/
def otherProc : Process := mkRunning [⟨"PRINT", []⟩] 64 0

/-- The C4 system: the faulting process on core 0, a bystander ready. -/
def writeSys : SystemState := ⟨[some writeProc], [otherProc], [], [], allocMM⟩

/-- A fresh process about to run `PRINT +x` (claim C2's counterexample). -/
def printPlusProc : Process := mkRunning [⟨"PRINT", ["+x"]⟩] 64 0

/-- A process about to run `DECLARE x abc` — an unparseable literal
(claim C3's counterexample). -/
def declAbcProc : Process := mkRunning [⟨"DECLARE", ["x", "abc"]⟩] 64 0

/-- A process about to run `SLEEP 0` (claim C9's counterexample). -/
def sleepZeroProc : Process := mkRunning [⟨"SLEEP", ["0"]⟩] 64 0

/-- A configuration with an unrecognized replacement policy (`xyz`, neither
`fifo` nor `lru`) and `mem_per_frame = 0`; every field `isValidConfig`
examines is in range. -/
def badConfig : Config :=
  ⟨1, "fcfs", 1, 1, 1, 1, 0, 64, 0, 64, 64, "xyz"⟩

/-- Computable "starts with" on strings (character-list comparison), used to
state the spec's claim about the exec log's last line. -/
def strBegins (s pre : String) : Bool :=
  pre.toList.isPrefixOf s.toList

/-- A process about to run `SLEEP 7`. -/
def sleepSevenProc : Process := mkRunning [⟨"SLEEP", ["7"]⟩] 64 0

/-- A process about to run the unknown opcode `FOO`. -/
def fooProc : Process := mkRunning [⟨"FOO", ["1"]⟩] 64 0

/-- A fresh process with no instructions. -/
def emptyProc : Process := mkRunning [] 64 0

/-- A process about to run `ADD x 65535 1`. -/
def addMaxProc : Process := mkRunning [⟨"ADD", ["x", "65535", "1"]⟩] 64 0

/-- A process about to run `SUBTRACT x 0 1`. -/
def subZeroProc : Process := mkRunning [⟨"SUBTRACT", ["x", "0", "1"]⟩] 64 0

/-- `allocMM` after one `request_page` for page 0 of pid 1: page 0 resident
in frame 0. -/
def residentMM : MMState :=
  (request_page fifoConfig allocMM 1 0 1).getD emptyMM

/-- An instruction the claim C3 calls benign-invalid: unknown opcode or wrong
arity (the arity floors checked by each opcode's arm in
`execute_instruction`). -/
def benign_invalid (ins : Instruction) : Prop :=
  (ins.op ≠ "PRINT" ∧ ins.op ≠ "DECLARE" ∧ ins.op ≠ "ADD" ∧ ins.op ≠ "SUBTRACT" ∧
    ins.op ≠ "SLEEP" ∧ ins.op ≠ "READ" ∧ ins.op ≠ "WRITE" ∧ ins.op ≠ "FOR") ∨
  (ins.op = "DECLARE" ∧ ins.args.length < 2) ∨
  ((ins.op = "ADD" ∨ ins.op = "SUBTRACT") ∧ ins.args.length < 3) ∨
  ((ins.op = "READ" ∨ ins.op = "WRITE") ∧ ins.args.length < 2) ∨
  (ins.op = "SLEEP" ∧ ins.args = []) ∨
  (ins.op = "FOR" ∧ ins.args.length < 2)

/-- Every variable value in a symbol table lies in `[0, 65535]`. -/
def memBounded (m : List (String × Int)) : Prop :=
  ∀ kv ∈ m, 0 ≤ kv.2 ∧ kv.2 ≤ 65535

/-- The result of one step on the instruction-less process (it finishes). -/
def emptyProcDone : Process :=
  (execute_instruction fifoConfig emptyProc 0).getD emptyProc

/-! ### Association-list and page-table lemmas -/

theorem lookupA_setA_self {κ ν : Type} [DecidableEq κ]
    (l : List (κ × ν)) (k : κ) (v : ν) :
    lookupA (setA l k v) k = some v := by
  induction l with
  | nil => simp [setA, lookupA]
  | cons hd tl ih =>
      obtain ⟨a, w⟩ := hd
      by_cases h : a = k
      · simp [setA, h, lookupA]
      · simp [setA, h, lookupA, ih]

theorem ptLookup_ptSet_self (pt : List (Int × List (Int × Int)))
    (pid pg v : Int) :
    ptLookup (ptSet pt pid pg v) pid pg = some v := by
  simp [ptLookup, ptSet, lookupA_setA_self]

theorem ptGetOrInsert_of_lookup {pt : List (Int × List (Int × Int))}
    {pid pg v : Int} (h : ptLookup pt pid pg = some v) :
    ptGetOrInsert pt pid pg = (v, pt) := by
  unfold ptLookup at h
  unfold ptGetOrInsert
  cases houter : lookupA pt pid with
  | none => simp [houter] at h
  | some inner =>
      simp only [houter] at h ⊢
      rw [h]

theorem ptGetOrInsert_of_none {pt : List (Int × List (Int × Int))}
    {pid pg : Int} (h : ptLookup pt pid pg = none) :
    (ptGetOrInsert pt pid pg).1 = 0 ∧
      ptLookup (ptGetOrInsert pt pid pg).2 pid pg = some 0 := by
  unfold ptLookup at h
  unfold ptGetOrInsert
  cases houter : lookupA pt pid with
  | none =>
      simp only [houter]
      refine ⟨trivial, ?_⟩
      simp [ptLookup, lookupA_setA_self, lookupA]
  | some inner =>
      simp only [houter] at h ⊢
      simp only [h]
      refine ⟨trivial, ?_⟩
      simp [ptLookup, lookupA_setA_self]

theorem ptLookup_getOrInsert (pt : List (Int × List (Int × Int)))
    (pid pg : Int) :
    ptLookup (ptGetOrInsert pt pid pg).2 pid pg =
      some (ptGetOrInsert pt pid pg).1 := by
  cases h : ptLookup pt pid pg with
  | none =>
      obtain ⟨h1, h2⟩ := ptGetOrInsert_of_none h
      rw [h2, h1]
  | some v =>
      rw [ptGetOrInsert_of_lookup h]
      exact h

/-! ### Invariant-preservation lemmas for the instruction engine -/

theorem clamp_bounds (v : Int) :
    0 ≤ clamp_to_uint16 v ∧ clamp_to_uint16 v ≤ 65535 := by
  unfold clamp_to_uint16
  split_ifs <;> omega

theorem setA_bounded {m : List (String × Int)} {k : String} {v : Int}
    (hm : memBounded m) (h0 : 0 ≤ v) (h1 : v ≤ 65535) :
    memBounded (setA m k v) := by
  induction m with
  | nil =>
      intro kv hkv
      simp [setA] at hkv
      simp [hkv, h0, h1]
  | cons hd tl ih =>
      obtain ⟨a, w⟩ := hd
      have hhd : 0 ≤ w ∧ w ≤ 65535 := hm (a, w) (by simp)
      have htl : memBounded tl := fun kv hkv => hm kv (by simp [hkv])
      intro kv hkv
      by_cases hak : a = k
      · simp [setA, hak] at hkv
        rcases hkv with hkv | hkv
        · simp [hkv, h0, h1]
        · exact htl kv hkv
      · simp [setA, hak] at hkv
        rcases hkv with hkv | hkv
        · simp [hkv]; exact hhd
        · exact ih htl kv hkv

theorem ensure_eq_bytes {p : Process} {v : String} {b : Bool} {p1 : Process}
    (he : ensure_symbol_table_slot p v = (b, p1))
    (hb : p.symbol_table_bytes_used ≤ 64) :
    p1.symbol_table_bytes_used ≤ 64 := by
  unfold ensure_symbol_table_slot at he
  split_ifs at he with hA hB
  · injection he with h1 h2
    subst h2
    exact hb
  · injection he with h1 h2
    subst h2
    exact hb
  · injection he with h1 h2
    subst h2
    show p.symbol_table_bytes_used + 2 ≤ 64
    omega

theorem ensure_eq_bounded {p : Process} {v : String} {b : Bool} {p1 : Process}
    (he : ensure_symbol_table_slot p v = (b, p1))
    (hm : memBounded p.memory) :
    memBounded p1.memory := by
  unfold ensure_symbol_table_slot at he
  split_ifs at he <;> (injection he with h1 h2; subst h2)
  · exact hm
  · exact hm
  · exact setA_bounded hm (by omega) (by omega)

theorem gov_eq_bytes {o : String} {p : Process} {v : Int} {p1 : Process}
    (he : get_operand_value o p = some (v, p1))
    (hb : p.symbol_table_bytes_used ≤ 64) :
    p1.symbol_table_bytes_used ≤ 64 := by
  unfold get_operand_value at he
  split at he
  · injection he with h1
    injection h1 with hv hp
    subst hp
    exact hb
  · split at he
    · split at he
      · injection he with h1
        injection h1 with hv hp
        subst hp
        exact hb
      · exact absurd he (by simp)
    · split at he
      next heq =>
        injection he with h1
        injection h1 with hv hp
        subst hp
        exact ensure_eq_bytes heq hb
      next heq =>
        injection he with h1
        injection h1 with hv hp
        subst hp
        exact ensure_eq_bytes heq hb

theorem gov_eq_bounded {o : String} {p : Process} {v : Int} {p1 : Process}
    (he : get_operand_value o p = some (v, p1))
    (hm : memBounded p.memory) :
    memBounded p1.memory := by
  unfold get_operand_value at he
  split at he
  · injection he with h1
    injection h1 with hv hp
    subst hp
    exact hm
  · split at he
    · split at he
      · injection he with h1
        injection h1 with hv hp
        subst hp
        exact hm
      · exact absurd he (by simp)
    · split at he
      next heq =>
        injection he with h1
        injection h1 with hv hp
        subst hp
        exact ensure_eq_bounded heq hm
      next heq =>
        injection he with h1
        injection h1 with hv hp
        subst hp
        exact ensure_eq_bounded heq hm

theorem ppmGo_bytes (fuel : Nat) (cs : List Char) (p : Process) :
    (ppmGo fuel cs p).2.symbol_table_bytes_used = p.symbol_table_bytes_used := by
  induction fuel generalizing cs p with
  | zero => rfl
  | succ n ih =>
      cases cs with
      | nil => rfl
      | cons c rest =>
          simp only [ppmGo]
          split_ifs <;> simp [ih]

theorem ppmGo_bounded (fuel : Nat) (cs : List Char) (p : Process)
    (hm : memBounded p.memory) :
    memBounded (ppmGo fuel cs p).2.memory := by
  induction fuel generalizing cs p with
  | zero => exact hm
  | succ n ih =>
      cases cs with
      | nil => exact hm
      | cons c rest =>
          simp only [ppmGo]
          split_ifs with hplus hname hmem
          · exact ih _ _ hm
          · exact ih _ _ (setA_bounded hm (by omega) (by omega))
          · exact ih _ _ hm
          · exact ih _ _ hm

theorem ppm_bytes (m : String) (p : Process) :
    (process_print_message m p).2.symbol_table_bytes_used =
      p.symbol_table_bytes_used :=
  ppmGo_bytes _ _ _

theorem ppm_bounded (m : String) (p : Process) (hm : memBounded p.memory) :
    memBounded (process_print_message m p).2.memory :=
  ppmGo_bounded _ _ _ hm

theorem arith_eq_bytes {p : Process} {ins : Instruction} {b : Bool} {p1 : Process}
    (he : execute_arithmetic p ins b = some p1)
    (hb : p.symbol_table_bytes_used ≤ 64) :
    p1.symbol_table_bytes_used ≤ 64 := by
  unfold execute_arithmetic at he
  split at he
  · split at he
    next heq => -- ensure returned (false, _)
      injection he with h1
      rw [← h1]
      exact ensure_eq_bytes heq hb
    next heq =>
      split at he
      · exact absurd he (by simp)
      next hg2 =>
        split at he
        · exact absurd he (by simp)
        next hg3 =>
          have hb3 := gov_eq_bytes hg3 (gov_eq_bytes hg2 (ensure_eq_bytes heq hb))
          injection he with h1
          rw [← h1]
          exact hb3
  · injection he with h1
    rw [← h1]
    exact hb

theorem arith_eq_bounded {p : Process} {ins : Instruction} {b : Bool} {p1 : Process}
    (he : execute_arithmetic p ins b = some p1)
    (hm : memBounded p.memory) :
    memBounded p1.memory := by
  unfold execute_arithmetic at he
  split at he
  · split at he
    next heq =>
      injection he with h1
      rw [← h1]
      exact ensure_eq_bounded heq hm
    next heq =>
      split at he
      · exact absurd he (by simp)
      next hg2 =>
        split at he
        · exact absurd he (by simp)
        next hg3 =>
          have hq3 := gov_eq_bounded hg3 (gov_eq_bounded hg2 (ensure_eq_bounded heq hm))
          injection he with h1
          rw [← h1]
          exact setA_bounded hq3 (clamp_bounds _).1 (clamp_bounds _).2
  · injection he with h1
    rw [← h1]
    exact hm

theorem advance_bytes (cfg : Config) (p : Process) :
    (advance_and_epilogue cfg p).symbol_table_bytes_used =
      p.symbol_table_bytes_used := by
  simp only [advance_and_epilogue]
  split <;> first | rfl | (split_ifs <;> rfl)

theorem advance_memory (cfg : Config) (p : Process) :
    (advance_and_epilogue cfg p).memory = p.memory := by
  simp only [advance_and_epilogue]
  split <;> first | rfl | (split_ifs <;> rfl)

theorem advance_state (cfg : Config) (p : Process) :
    (advance_and_epilogue cfg p).state = p.state := by
  simp only [advance_and_epilogue]
  split <;> first | rfl | (split_ifs <;> rfl)

theorem advance_of_no_loop (cfg : Config) (p : Process)
    (h : p.loop_stack = []) :
    advance_and_epilogue cfg p =
      { p with current_instruction := p.current_instruction + 1,
               delay_ticks_left := cfg.delaysPerExec } := by
  simp [advance_and_epilogue, h]

theorem declare_bytes {cfg : Config} {pL : Process} {ins : Instruction}
    {p' : Process} (h : exec_declare cfg pL ins = some p')
    (hb : pL.symbol_table_bytes_used ≤ 64) :
    p'.symbol_table_bytes_used ≤ 64 := by
  unfold exec_declare at h
  split at h
  · split at h
    · exact Option.noConfusion h
    · split at h
      · rename_i p1 heq
        have hp1 := ensure_eq_bytes heq hb
        injection h with h1
        rw [← h1, advance_bytes]
        exact hp1
      · rename_i p1 heq
        have hp1 := ensure_eq_bytes heq hb
        injection h with h1
        rw [← h1, advance_bytes]
        exact hp1
  · injection h with h1
    rw [← h1, advance_bytes]
    exact hb

theorem sleep_bytes {cfg : Config} {pL : Process} {ins : Instruction} {t : Nat}
    {p' : Process} (h : exec_sleep cfg pL ins t = some p')
    (hb : pL.symbol_table_bytes_used ≤ 64) :
    p'.symbol_table_bytes_used ≤ 64 := by
  unfold exec_sleep at h
  split at h
  · split at h
    · exact Option.noConfusion h
    · injection h with h1
      rw [← h1]
      exact hb
  · injection h with h1
    rw [← h1, advance_bytes]
    exact hb

theorem read_bytes {cfg : Config} {pL : Process} {ins : Instruction} {t : Nat}
    {p' : Process} (h : exec_read cfg pL ins t = some p')
    (hb : pL.symbol_table_bytes_used ≤ 64) :
    p'.symbol_table_bytes_used ≤ 64 := by
  unfold exec_read at h
  split at h
  · split at h
    · split at h
      · injection h with h1
        rw [← h1]
        exact hb
      · split at h
        · rename_i p1 heq
          have hp1 := ensure_eq_bytes heq hb
          injection h with h1
          rw [← h1, advance_bytes]
          exact hp1
        · rename_i p1 heq
          have hp1 := ensure_eq_bytes heq hb
          injection h with h1
          rw [← h1, advance_bytes]
          exact hp1
    · injection h with h1
      rw [← h1]
      exact hb
  · injection h with h1
    rw [← h1, advance_bytes]
    exact hb

theorem write_bytes {cfg : Config} {pL : Process} {ins : Instruction} {t : Nat}
    {p' : Process} (h : exec_write cfg pL ins t = some p')
    (hb : pL.symbol_table_bytes_used ≤ 64) :
    p'.symbol_table_bytes_used ≤ 64 := by
  unfold exec_write at h
  split at h
  · split at h
    · split at h
      · injection h with h1
        rw [← h1]
        exact hb
      · split at h
        · exact Option.noConfusion h
        · rename_i raw p1 hg
          have hp1 := gov_eq_bytes hg hb
          injection h with h1
          rw [← h1, advance_bytes]
          exact hp1
    · injection h with h1
      rw [← h1]
      exact hb
  · injection h with h1
    rw [← h1, advance_bytes]
    exact hb

theorem for_bytes {cfg : Config} {pL : Process} {ins : Instruction}
    {p' : Process} (h : exec_for cfg pL ins = some p')
    (hb : pL.symbol_table_bytes_used ≤ 64) :
    p'.symbol_table_bytes_used ≤ 64 := by
  unfold exec_for at h
  split at h
  · split at h
    · exact Option.noConfusion h
    · split at h
      · exact Option.noConfusion h
      · split at h
        · injection h with h1
          rw [← h1]
          exact hb
        · split at h
          · injection h with h1
            rw [← h1]
            exact hb
          · injection h with h1
            rw [← h1]
            exact hb
  · injection h with h1
    rw [← h1]
    exact hb

theorem print_bytes {cfg : Config} {pL : Process} {ins : Instruction}
    {p' : Process} (h : exec_print cfg pL ins = some p')
    (hb : pL.symbol_table_bytes_used ≤ 64) :
    p'.symbol_table_bytes_used ≤ 64 := by
  unfold exec_print at h
  injection h with h1
  rw [← h1, advance_bytes, ppm_bytes]
  exact hb

theorem core_bytes {cfg : Config} {pL : Process} {ins : Instruction} {t : Nat}
    {p' : Process} (h : execute_instruction_core cfg pL ins t = some p')
    (hb : pL.symbol_table_bytes_used ≤ 64) :
    p'.symbol_table_bytes_used ≤ 64 := by
  unfold execute_instruction_core at h
  split_ifs at h
  · exact print_bytes h hb
  · exact declare_bytes h hb
  · rw [Option.map_eq_some'] at h
    obtain ⟨q, hq, h1⟩ := h
    rw [← h1, advance_bytes]
    exact arith_eq_bytes hq hb
  · rw [Option.map_eq_some'] at h
    obtain ⟨q, hq, h1⟩ := h
    rw [← h1, advance_bytes]
    exact arith_eq_bytes hq hb
  · exact sleep_bytes h hb
  · exact read_bytes h hb
  · exact write_bytes h hb
  · exact for_bytes h hb
  · injection h with h1
    rw [← h1, advance_bytes]
    exact hb

theorem step_bytes {cfg : Config} {p : Process} {t : Nat} {p' : Process}
    (h : execute_instruction cfg p t = some p')
    (hb : p.symbol_table_bytes_used ≤ 64) :
    p'.symbol_table_bytes_used ≤ 64 := by
  unfold execute_instruction at h
  split_ifs at h
  · injection h with h1
    rw [← h1]
    exact hb
  · injection h with h1
    rw [← h1]
    exact hb
  · exact core_bytes h hb

theorem declare_bounded {cfg : Config} {pL : Process} {ins : Instruction}
    {p' : Process} (h : exec_declare cfg pL ins = some p')
    (hm : memBounded pL.memory) :
    memBounded p'.memory := by
  unfold exec_declare at h
  split at h
  · split at h
    · exact Option.noConfusion h
    · split at h
      · rename_i p1 heq
        have hp1 := ensure_eq_bounded heq hm
        injection h with h1
        rw [← h1, advance_memory]
        exact setA_bounded hp1 (clamp_bounds _).1 (clamp_bounds _).2
      · rename_i p1 heq
        have hp1 := ensure_eq_bounded heq hm
        injection h with h1
        rw [← h1, advance_memory]
        exact hp1
  · injection h with h1
    rw [← h1, advance_memory]
    exact hm

theorem sleep_bounded {cfg : Config} {pL : Process} {ins : Instruction} {t : Nat}
    {p' : Process} (h : exec_sleep cfg pL ins t = some p')
    (hm : memBounded pL.memory) :
    memBounded p'.memory := by
  unfold exec_sleep at h
  split at h
  · split at h
    · exact Option.noConfusion h
    · injection h with h1
      rw [← h1]
      exact hm
  · injection h with h1
    rw [← h1, advance_memory]
    exact hm

theorem read_bounded {cfg : Config} {pL : Process} {ins : Instruction} {t : Nat}
    {p' : Process} (h : exec_read cfg pL ins t = some p')
    (hm : memBounded pL.memory) :
    memBounded p'.memory := by
  unfold exec_read at h
  split at h
  · split at h
    · split at h
      · injection h with h1
        rw [← h1]
        exact hm
      · split at h
        · rename_i p1 heq
          have hp1 := ensure_eq_bounded heq hm
          injection h with h1
          rw [← h1, advance_memory]
          exact setA_bounded hp1 (clamp_bounds _).1 (clamp_bounds _).2
        · rename_i p1 heq
          have hp1 := ensure_eq_bounded heq hm
          injection h with h1
          rw [← h1, advance_memory]
          exact hp1
    · injection h with h1
      rw [← h1]
      exact hm
  · injection h with h1
    rw [← h1, advance_memory]
    exact hm

theorem write_bounded {cfg : Config} {pL : Process} {ins : Instruction} {t : Nat}
    {p' : Process} (h : exec_write cfg pL ins t = some p')
    (hm : memBounded pL.memory) :
    memBounded p'.memory := by
  unfold exec_write at h
  split at h
  · split at h
    · split at h
      · injection h with h1
        rw [← h1]
        exact hm
      · split at h
        · exact Option.noConfusion h
        · rename_i raw p1 hg
          have hp1 := gov_eq_bounded hg hm
          injection h with h1
          rw [← h1, advance_memory]
          exact hp1
    · injection h with h1
      rw [← h1]
      exact hm
  · injection h with h1
    rw [← h1, advance_memory]
    exact hm

theorem for_bounded {cfg : Config} {pL : Process} {ins : Instruction}
    {p' : Process} (h : exec_for cfg pL ins = some p')
    (hm : memBounded pL.memory) :
    memBounded p'.memory := by
  unfold exec_for at h
  split at h
  · split at h
    · exact Option.noConfusion h
    · split at h
      · exact Option.noConfusion h
      · split at h
        · injection h with h1
          rw [← h1]
          exact hm
        · split at h
          · injection h with h1
            rw [← h1]
            exact hm
          · injection h with h1
            rw [← h1]
            exact hm
  · injection h with h1
    rw [← h1]
    exact hm

theorem print_bounded {cfg : Config} {pL : Process} {ins : Instruction}
    {p' : Process} (h : exec_print cfg pL ins = some p')
    (hm : memBounded pL.memory) :
    memBounded p'.memory := by
  unfold exec_print at h
  injection h with h1
  rw [← h1, advance_memory]
  exact ppm_bounded _ _ hm

theorem core_bounded {cfg : Config} {pL : Process} {ins : Instruction} {t : Nat}
    {p' : Process} (h : execute_instruction_core cfg pL ins t = some p')
    (hm : memBounded pL.memory) :
    memBounded p'.memory := by
  unfold execute_instruction_core at h
  split_ifs at h
  · exact print_bounded h hm
  · exact declare_bounded h hm
  · rw [Option.map_eq_some'] at h
    obtain ⟨q, hq, h1⟩ := h
    rw [← h1, advance_memory]
    exact arith_eq_bounded hq hm
  · rw [Option.map_eq_some'] at h
    obtain ⟨q, hq, h1⟩ := h
    rw [← h1, advance_memory]
    exact arith_eq_bounded hq hm
  · exact sleep_bounded h hm
  · exact read_bounded h hm
  · exact write_bounded h hm
  · exact for_bounded h hm
  · injection h with h1
    rw [← h1, advance_memory]
    exact hm

theorem step_bounded {cfg : Config} {p : Process} {t : Nat} {p' : Process}
    (h : execute_instruction cfg p t = some p')
    (hm : memBounded p.memory) :
    memBounded p'.memory := by
  unfold execute_instruction at h
  split_ifs at h
  · injection h with h1
    rw [← h1]
    exact hm
  · injection h with h1
    rw [← h1]
    exact hm
  · exact core_bounded h hm

/-! ### Theorems -/

/-- C5: with a 4-frame pool under FIFO, touching pages 0,1,2,3,4 of one
process (addresses 0,16,32,48,64, spaced `mem_per_frame = 16` apart) from an
empty pool performs 5 swap-ins and 1 swap-out, after which page 0 is no
longer resident and pages 1,2,3,4 are resident. -/
theorem c5_fifo_paging_pressure :
    (pressureMM.map (fun s => (s.pagedInCount, s.pagedOutCount)) = some (5, 1)) ∧
    ((pressureMM.bind (fun s => is_page_resident fifoConfig s 1 0 9)).map Prod.fst
      = some false) ∧
    ((pressureMM.bind (fun s => is_page_resident fifoConfig s 1 16 9)).map Prod.fst
      = some true) ∧
    ((pressureMM.bind (fun s => is_page_resident fifoConfig s 1 32 9)).map Prod.fst
      = some true) ∧
    ((pressureMM.bind (fun s => is_page_resident fifoConfig s 1 48 9)).map Prod.fst
      = some true) ∧
    ((pressureMM.bind (fun s => is_page_resident fifoConfig s 1 64 9)).map Prod.fst
      = some true) := by
  refine ⟨by decide, by decide, by decide, by decide, by decide, by decide⟩

/-- C1: the compiled `execute_cpu_tick` never performs the page-fault stall.
With core 0 holding a process whose current instruction is `READ x 0x0` and
whose page 0 is NOT resident, the tick step executes the instruction anyway:
the memory-manager state is untouched (so `request_page` — which would have
changed it — was never called), `current_instruction` advances, and under RR
the quantum is decremented. The stall-retry behaviour exists only inside
comments (scheduler.cpp:579-587, 746-758, 791-803). -/
theorem c1_scheduler_never_requests_page_on_fault :
    ((is_page_resident fifoConfig allocMM 1 0 1).map Prod.fst = some false) ∧
    (request_page fifoConfig allocMM 1 0 1 ≠ some allocMM) ∧
    ((execute_cpu_tick fifoConfig readSys 1).map
        (fun s => (s.mm, s.cores.map (Option.map Process.current_instruction)))
      = some (allocMM, [some 1])) ∧
    ((execute_cpu_tick rrConfig readSysRR 1).map
        (fun s => (s.mm, s.cores.map (Option.map
          (fun p => (p.current_instruction, p.quantum_ticks_left)))))
      = some (allocMM, [some (1, 2)])) := by
  refine ⟨by decide, by decide, by decide, by decide⟩

/-- C4 counterexample: the exec log's last line after `WRITE 0x100 5` on a
64-byte process does NOT start with `FAULT: invalid WRITE address 0x100` —
`log_event` prepends the `[<tick>] ` stamp to every line. -/
theorem c4_fault_line_carries_tick_stamp :
    (execute_instruction fifoConfig writeProc 0).map
        (fun p => strBegins (p.exec_log.getLastD "") "FAULT: invalid WRITE address 0x100")
      = some false := by
  decide

/-- C4 amended: executing `WRITE 0x100 5` on a process with
`memory_size = 64` at tick 0 transitions the process to `memory_violated`,
leaves `current_instruction` at 0, and the exec log's last line is
`[0] FAULT: invalid WRITE address 0x100` (the logged message after the
mandatory `[<tick>] ` stamp starts with `FAULT: invalid WRITE address
0x100`); over a full tick no frame is consumed (`used_memory` and the whole
memory-manager state are unchanged) and the bystander process is untouched
in the ready queue while the violated process moves to the finished queue. -/
theorem c4_write_violation_step :
    ((execute_instruction fifoConfig writeProc 0).map
        (fun p => (p.state, p.exec_log.getLastD "", p.current_instruction))
      = some (ProcessState.memoryViolated, "[0] FAULT: invalid WRITE address 0x100", 0)) ∧
    ((execute_cpu_tick fifoConfig writeSys 0).map
        (fun s => (s.mm, get_used_memory fifoConfig s.mm, s.ready_queue, s.cores,
          s.finished_queue.map Process.state))
      = some (allocMM, get_used_memory fifoConfig allocMM, [otherProc], [none],
          [ProcessState.memoryViolated])) := by
  refine ⟨by decide, by rfl⟩

/-- C2 counterexample: `PRINT +x` on a fresh process auto-creates `x` through
`process_print_message` WITHOUT charging the symbol table, so afterwards one
variable is stored while `symbol_table_bytes_used = 0`, falsifying
`variables.len() × 2 ≤ symbol_table_bytes_used`. -/
theorem c2_print_expansion_breaks_accounting :
    (execute_instruction fifoConfig printPlusProc 0).map
        (fun p => (p.memory.length, p.symbol_table_bytes_used,
          decide (p.memory.length * 2 ≤ p.symbol_table_bytes_used)))
      = some (1, 0, false) := by
  decide

/-- C3 counterexample: `DECLARE x abc` does NOT complete the step —
`std::stoi("abc")` throws an uncaught `std::invalid_argument`, so the
instruction is neither logged-and-skipped nor handled in any way (the
emulator crashes). -/
theorem c3_unparseable_literal_crashes :
    execute_instruction fifoConfig declAbcProc 0 = none := by
  decide

/-- C9 counterexample: `SLEEP 0` executed at tick 5 transitions the process
into `sleeping` with `sleep_until_tick = 5`, which is NOT greater than the
global tick at the time of the transition. -/
theorem c9_sleep_zero_breaks_invariant :
    (execute_instruction fifoConfig sleepZeroProc 5).map
        (fun p => (p.state, p.sleep_until_tick, decide (p.sleep_until_tick > 5)))
      = some (ProcessState.sleeping, 5, false) := by
  decide

/-- C6 counterexample: a configuration with the unrecognized replacement
policy `xyz` and `mem_per_frame = 0` passes `isValidConfig`, so
initialization proceeds (state is created) instead of being refused. -/
theorem c6_invalid_config_accepted :
    isValidConfig badConfig = true := by
  decide

/-- C6 amended: `isValidConfig` accepts a configuration exactly when
`num_cpu ≥ 1`, the scheduler is `fcfs` or `rr`, `quantum_cycles ≥ 1`,
`batch_process_freq ≥ 1` and `1 ≤ min_ins ≤ max_ins` — the replacement
policy and the memory fields are never examined; and `mem_per_frame = 0`
does not refuse initialization, it only makes `MemoryManager::initialize`
return without building the frame pool. -/
theorem c6_config_validation :
    ∀ (cfg : Config) (s : MMState),
      (isValidConfig cfg = true ↔
        (1 ≤ cfg.numCPU ∧ (cfg.scheduler = "fcfs" ∨ cfg.scheduler = "rr") ∧
          1 ≤ cfg.quantumCycles ∧ 1 ≤ cfg.batchProcessFreq ∧
          1 ≤ cfg.minIns ∧ cfg.minIns ≤ cfg.maxIns)) ∧
      (cfg.memPerFrame = 0 → initializeMemoryManager cfg s = s) := by
  intro cfg s
  constructor
  · unfold isValidConfig
    split_ifs with h1 h2 h3 h4 h5
    · simp only [Bool.false_eq_true, false_iff]
      intro hc
      omega
    · simp only [Bool.false_eq_true, false_iff]
      intro hc
      tauto
    · simp only [Bool.false_eq_true, false_iff]
      intro hc
      omega
    · simp only [Bool.false_eq_true, false_iff]
      intro hc
      omega
    · simp only [Bool.false_eq_true, false_iff]
      intro hc
      omega
    · simp only [true_iff]
      refine ⟨by omega, ?_, by omega, by omega, by omega, by omega⟩
      by_cases hf : cfg.scheduler = "fcfs"
      · exact Or.inl hf
      · exact Or.inr (by tauto)
  · intro h0
    simp [initializeMemoryManager, h0]

/-- C6 witness: the concrete bad configuration passes validation and, having
`mem_per_frame = 0`, leaves the frame pool unbuilt without refusing. -/
theorem c6_config_validation_witness :
    isValidConfig badConfig = true ∧ initializeMemoryManager badConfig emptyMM = emptyMM := by
  exact ⟨(c6_config_validation badConfig emptyMM).1.mpr (by decide),
    (c6_config_validation badConfig emptyMM).2 (by decide)⟩

/-- C9 amended: `SLEEP <tok>` with `stoi tok = n ≥ 0` (and no tick overflow)
sets the state to `sleeping`, sets `sleep_until_tick = T + n`, and advances
`current_instruction` before yielding; the transition satisfies
`sleep_until_tick > global_tick` exactly when `n ≥ 1`. -/
theorem c9_sleep_semantics :
    ∀ (cfg : Config) (p : Process) (t : Nat) (tok : String) (n : Int),
      p.delay_ticks_left = 0 →
      p.current_instruction < p.instructions.length →
      (p.instructions.drop p.current_instruction).headD (Instruction.mk "" []) =
        Instruction.mk "SLEEP" [tok] →
      stoi tok = some n → 0 ≤ n → (t : Int) + n < 2 ^ 64 →
      ∃ p', execute_instruction cfg p t = some p' ∧
        p'.state = ProcessState.sleeping ∧
        (p'.sleep_until_tick : Int) = (t : Int) + n ∧
        p'.current_instruction = p.current_instruction + 1 ∧
        (1 ≤ n → t < p'.sleep_until_tick) := by
  intro cfg p t tok n hdelay hlt hins hstoi hn hov
  unfold execute_instruction
  rw [hins]
  simp only [hdelay, gt_iff_lt, lt_irrefl, if_false, not_le.mpr hlt, if_neg,
    reduceIte]
  unfold execute_instruction_core exec_sleep
  simp only [reduceIte, hstoi]
  refine ⟨_, rfl, rfl, ?_, rfl, ?_⟩
  · show ((((t : Int) + n).emod (2 ^ 64)).toNat : Int) = (t : Int) + n
    have hmod : ((t : Int) + n).emod (2 ^ 64) = (t : Int) + n :=
      Int.emod_eq_of_lt (by omega) (by omega)
    rw [hmod]
    omega
  · intro h1
    show t < (((t : Int) + n).emod (2 ^ 64)).toNat
    have hmod : ((t : Int) + n).emod (2 ^ 64) = (t : Int) + n :=
      Int.emod_eq_of_lt (by omega) (by omega)
    rw [hmod]
    omega

/-- C9 witness: `SLEEP 7` at tick 5 sleeps until tick 12. -/
theorem c9_sleep_semantics_witness :
    ∃ p', execute_instruction fifoConfig sleepSevenProc 5 = some p' ∧
      p'.state = ProcessState.sleeping ∧
      (p'.sleep_until_tick : Int) = (5 : Int) + 7 ∧
      p'.current_instruction = sleepSevenProc.current_instruction + 1 ∧
      (1 ≤ (7 : Int) → 5 < p'.sleep_until_tick) := by
  exact c9_sleep_semantics fifoConfig sleepSevenProc 5 "7" 7 (by decide)
    (by decide) (by decide) (by decide) (by decide) (by decide)

/-- A successful `swap_in` leaves the requested page mapped to the (valid,
hence non-negative) frame index. -/
theorem swap_in_resident {s0 s' : MMState} {pid pg fi : Int} {tick : Nat}
    (h : swap_in s0 pid pg fi tick = some s') :
    ptLookup s'.pageTables pid pg = some fi ∧ 0 ≤ fi := by
  unfold swap_in at h
  split at h
  · injection h with h'
    subst h'
    refine ⟨ptLookup_ptSet_self _ _ _ _, ?_⟩
    next hc => exact hc.1
  · exact absurd h (by simp)

/-- C7: `request_page` on a `(pid, vaddr)` whose page has NO page-table entry
(no allocation at all, or an allocation not covering the page) performs no
swap-in and no eviction — frames and both paging counters are unchanged —
but `operator[]` default-inserts a page-table entry with value 0, mapping
the page to frame 0, after which `is_page_resident` reports the page
resident (whatever process actually owns frame 0). -/
theorem c7_uncovered_request_fabricates_mapping :
    ∀ (cfg : Config) (s : MMState) (pid : Int) (vaddr tick tick2 : Nat),
      ptLookup s.pageTables pid (getPageFromAddress cfg vaddr) = none →
      ∃ s', request_page cfg s pid vaddr tick = some s' ∧
        s'.frames = s.frames ∧
        s'.pagedInCount = s.pagedInCount ∧
        s'.pagedOutCount = s.pagedOutCount ∧
        ptLookup s'.pageTables pid (getPageFromAddress cfg vaddr) = some 0 ∧
        (0 < s.frames.length →
          (is_page_resident cfg s' pid vaddr tick2).map Prod.fst = some true) := by
  intro cfg s pid vaddr tick tick2 h
  obtain ⟨h1, h2⟩ := ptGetOrInsert_of_none h
  refine ⟨{ s with pageTables :=
      (ptGetOrInsert s.pageTables pid (getPageFromAddress cfg vaddr)).2 },
    ?_, rfl, rfl, rfl, h2, ?_⟩
  · simp only [request_page]
    rw [h1]
    simp
  · intro hlen
    simp only [is_page_resident, h2]
    norm_num
    intro hnil
    exact absurd hlen (by simp [hnil])

/-- C8: `request_page` is idempotent. (a) When the page already has a
page-table entry `f ≠ -1` ("resident"), the call changes nothing at all: no
frame ownership, no mapping, no counter. (b) After any successful call, an
immediate second call (at any tick) is a no-op, so two calls in a row
perform at most one swap-in. -/
theorem c8_request_page_idempotent :
    (∀ (cfg : Config) (s : MMState) (pid : Int) (vaddr tick : Nat) (f : Int),
        ptLookup s.pageTables pid (getPageFromAddress cfg vaddr) = some f →
        f ≠ -1 →
        request_page cfg s pid vaddr tick = some s) ∧
    (∀ (cfg : Config) (s s' : MMState) (pid : Int) (vaddr tick tick2 : Nat),
        request_page cfg s pid vaddr tick = some s' →
        request_page cfg s' pid vaddr tick2 = some s') := by
  have key : ∀ (cfg : Config) (s : MMState) (pid : Int) (vaddr tick : Nat) (f : Int),
      ptLookup s.pageTables pid (getPageFromAddress cfg vaddr) = some f →
      f ≠ -1 →
      request_page cfg s pid vaddr tick = some s := by
    intro cfg s pid vaddr tick f hf hne
    simp only [request_page]
    rw [ptGetOrInsert_of_lookup hf]
    simp [hne]
  refine ⟨key, ?_⟩
  intro cfg s s' pid vaddr tick tick2 h
  simp only [request_page] at h
  by_cases hv : (ptGetOrInsert s.pageTables pid (getPageFromAddress cfg vaddr)).1 ≠ -1
  · rw [if_pos hv] at h
    injection h with h'
    subst h'
    exact key cfg _ pid vaddr tick2 _
      (ptLookup_getOrInsert s.pageTables pid (getPageFromAddress cfg vaddr)) hv
  · rw [if_neg hv] at h
    split at h
    · split at h
      · exact absurd h (by simp)
      · obtain ⟨hres, hfi⟩ := swap_in_resident h
        exact key cfg s' pid vaddr tick2 _ hres (by omega)
    · obtain ⟨hres, hfi⟩ := swap_in_resident h
      exact key cfg s' pid vaddr tick2 _ hres (by omega)

/-- C7 witness: pid 7 has no allocation in `allocMM`; requesting address 0
fabricates the `page 0 ↦ frame 0` mapping without touching the counters. -/
theorem c7_uncovered_request_fabricates_mapping_witness :
    ptLookup allocMM.pageTables 7 (getPageFromAddress fifoConfig 0) = none ∧
    (∃ s', request_page fifoConfig allocMM 7 0 1 = some s' ∧
      s'.frames = allocMM.frames ∧
      s'.pagedInCount = allocMM.pagedInCount ∧
      s'.pagedOutCount = allocMM.pagedOutCount ∧
      ptLookup s'.pageTables 7 (getPageFromAddress fifoConfig 0) = some 0 ∧
      (0 < allocMM.frames.length →
        (is_page_resident fifoConfig s' 7 0 2).map Prod.fst = some true)) := by
  exact ⟨by decide,
    c7_uncovered_request_fabricates_mapping fifoConfig allocMM 7 0 1 2 (by decide)⟩

/-- C8 witness: page 0 of pid 1 is resident in `residentMM` (entry frame 0),
so requesting it again changes nothing; and the call that produced
`residentMM` from `allocMM` is absorbed by a repeat call. -/
theorem c8_request_page_idempotent_witness :
    request_page fifoConfig residentMM 1 0 2 = some residentMM ∧
    request_page fifoConfig residentMM 1 0 3 = some residentMM := by
  exact ⟨c8_request_page_idempotent.1 fifoConfig residentMM 1 0 2 0 (by decide)
      (by decide),
    c8_request_page_idempotent.2 fifoConfig allocMM residentMM 1 0 1 3 (by decide)⟩

/-- A benign-invalid instruction (unknown opcode or wrong arity) makes the
opcode dispatch a pure skip: the step completes, `current_instruction`
advances by one, and neither the state nor the symbol table changes. -/
theorem benign_invalid_core (cfg : Config) (ins : Instruction) (t : Nat)
    (hb : benign_invalid ins) :
    ∀ (q : Process), q.loop_stack = [] →
      ∃ r, execute_instruction_core cfg q ins t = some r ∧
        r.current_instruction = q.current_instruction + 1 ∧
        r.state = q.state ∧ r.memory = q.memory := by
  intro q hq
  rcases hb with ⟨h1, h2, h3, h4, h5, h6, h7, h8⟩ | ⟨hop, hlen⟩ | ⟨hop, hlen⟩ |
    ⟨hop, hlen⟩ | ⟨hop, hargs⟩ | ⟨hop, hlen⟩
  · have hx : execute_instruction_core cfg q ins t =
        some { q with current_instruction := q.current_instruction + 1,
                      delay_ticks_left := cfg.delaysPerExec } := by
      unfold execute_instruction_core
      rw [if_neg h1, if_neg h2, if_neg h3, if_neg h4, if_neg h5, if_neg h6,
        if_neg h7, if_neg h8, advance_of_no_loop cfg q hq]
    exact ⟨_, hx, rfl, rfl, rfl⟩
  · have hx : execute_instruction_core cfg q ins t =
        some { q with current_instruction := q.current_instruction + 1,
                      delay_ticks_left := cfg.delaysPerExec } := by
      unfold execute_instruction_core
      simp only [hop, String.reduceEq, reduceIte]
      unfold exec_declare
      rcases hargs2 : ins.args with _ | ⟨a, _ | ⟨b, tl⟩⟩
      · simp only [hargs2]
        rw [advance_of_no_loop cfg q hq]
      · simp only [hargs2]
        rw [advance_of_no_loop cfg q hq]
      · rw [hargs2] at hlen
        simp at hlen
        omega
    exact ⟨_, hx, rfl, rfl, rfl⟩
  · have hx : execute_instruction_core cfg q ins t =
        some { q with current_instruction := q.current_instruction + 1,
                      delay_ticks_left := cfg.delaysPerExec } := by
      rcases hop with hop | hop
      all_goals {
        unfold execute_instruction_core
        simp only [hop, String.reduceEq, reduceIte]
        unfold execute_arithmetic
        rcases hargs2 : ins.args with _ | ⟨a, _ | ⟨b, _ | ⟨c, tl⟩⟩⟩
        · simp only [hargs2, Option.map_some']
          rw [advance_of_no_loop cfg q hq]
        · simp only [hargs2, Option.map_some']
          rw [advance_of_no_loop cfg q hq]
        · simp only [hargs2, Option.map_some']
          rw [advance_of_no_loop cfg q hq]
        · rw [hargs2] at hlen
          simp at hlen
          omega
      }
    exact ⟨_, hx, rfl, rfl, rfl⟩
  · have hx : execute_instruction_core cfg q ins t =
        some { q with current_instruction := q.current_instruction + 1,
                      delay_ticks_left := cfg.delaysPerExec } := by
      rcases hop with hop | hop
      · unfold execute_instruction_core
        simp only [hop, String.reduceEq, reduceIte]
        unfold exec_read
        rcases hargs2 : ins.args with _ | ⟨a, _ | ⟨b, tl⟩⟩
        · simp only [hargs2]
          rw [advance_of_no_loop cfg q hq]
        · simp only [hargs2]
          rw [advance_of_no_loop cfg q hq]
        · rw [hargs2] at hlen
          simp at hlen
          omega
      · unfold execute_instruction_core
        simp only [hop, String.reduceEq, reduceIte]
        unfold exec_write
        rcases hargs2 : ins.args with _ | ⟨a, _ | ⟨b, tl⟩⟩
        · simp only [hargs2]
          rw [advance_of_no_loop cfg q hq]
        · simp only [hargs2]
          rw [advance_of_no_loop cfg q hq]
        · rw [hargs2] at hlen
          simp at hlen
          omega
    exact ⟨_, hx, rfl, rfl, rfl⟩
  · have hx : execute_instruction_core cfg q ins t =
        some { q with current_instruction := q.current_instruction + 1,
                      delay_ticks_left := cfg.delaysPerExec } := by
      unfold execute_instruction_core
      simp only [hop, String.reduceEq, reduceIte]
      unfold exec_sleep
      simp only [hargs]
      rw [advance_of_no_loop cfg q hq]
    exact ⟨_, hx, rfl, rfl, rfl⟩
  · have hx : execute_instruction_core cfg q ins t =
        some { q with current_instruction := q.current_instruction + 1 } := by
      unfold execute_instruction_core
      simp only [hop, String.reduceEq, reduceIte]
      unfold exec_for
      rcases hargs2 : ins.args with _ | ⟨a, _ | ⟨b, tl⟩⟩
      · simp only [hargs2]
      · simp only [hargs2]
      · rw [hargs2] at hlen
        simp at hlen
        omega
    exact ⟨_, hx, rfl, rfl, rfl⟩

/-- C3 amended: an instruction with an unknown opcode or wrong arity totally
completes the step — it is skipped by advancing `current_instruction`,
leaving the state (in particular, not `memory_violated`) and the variable
store untouched. (Unparseable literals are excluded: they crash, see the
counterexample.) -/
theorem c3_benign_invalid_skipped :
    ∀ (cfg : Config) (p : Process) (t : Nat) (ins : Instruction),
      p.delay_ticks_left = 0 →
      p.loop_stack = [] →
      p.current_instruction < p.instructions.length →
      (p.instructions.drop p.current_instruction).headD (Instruction.mk "" []) = ins →
      benign_invalid ins →
      ∃ p', execute_instruction cfg p t = some p' ∧
        p'.current_instruction = p.current_instruction + 1 ∧
        p'.state = p.state ∧
        p'.memory = p.memory := by
  intro cfg p t ins hdelay hloop hlt hins hb
  obtain ⟨r, hr, hci, hst, hmem⟩ := benign_invalid_core cfg ins t hb
    { p with exec_log := log_event p.exec_log t (execMsg ins) } hloop
  refine ⟨r, ?_, hci, hst, hmem⟩
  unfold execute_instruction
  rw [if_neg (by omega : ¬ p.delay_ticks_left > 0), if_neg (not_le.mpr hlt), hins]
  exact hr

/-- C3 witness: the unknown opcode `FOO 1` is skipped with no other effect. -/
theorem c3_benign_invalid_skipped_witness :
    ∃ p', execute_instruction fifoConfig fooProc 0 = some p' ∧
      p'.current_instruction = fooProc.current_instruction + 1 ∧
      p'.state = fooProc.state ∧
      p'.memory = fooProc.memory := by
  exact c3_benign_invalid_skipped fifoConfig fooProc 0 (Instruction.mk "FOO" ["1"])
    (by decide) (by decide) (by decide) (by decide)
    (by unfold benign_invalid; decide)

/-- C2 amended: (a) operand lookup through `get_operand_value` auto-creates a
missing variable (initialised to 0, 2 bytes charged) exactly when
`symbol_table_bytes_used + 2 ≤ 64`, and otherwise yields 0 WITHOUT storing
the variable; (b) `symbol_table_bytes_used ≤ 64` is preserved by every
completed step of `execute_instruction`. (The claimed
`variables.len() × 2 ≤ symbol_table_bytes_used` half of the invariant is
false — see the counterexample — because PRINT expansion stores variables
without charging.) -/
theorem c2_symbol_table_accounting :
    (∀ (p : Process) (operand : String) (c : Char) (rest : List Char),
        operand.toList = c :: rest →
        ¬(c.isDigit = true ∨ (c = '-' ∧ rest.length > 0)) →
        lookupA p.memory operand = none →
        ((p.symbol_table_bytes_used + 2 ≤ 64 →
            get_operand_value operand p =
              some (0, { p with
                  symbol_table_bytes_used := p.symbol_table_bytes_used + 2,
                  memory := setA p.memory operand 0 })) ∧
          (64 < p.symbol_table_bytes_used + 2 →
            get_operand_value operand p = some (0, p)))) ∧
    (∀ (cfg : Config) (p : Process) (t : Nat) (p' : Process),
        p.symbol_table_bytes_used ≤ 64 →
        execute_instruction cfg p t = some p' →
        p'.symbol_table_bytes_used ≤ 64) := by
  constructor
  · intro p operand c rest htl hguard hnone
    constructor
    · intro hroom
      simp only [get_operand_value, htl]
      rw [if_neg hguard]
      simp only [ensure_symbol_table_slot, hnone, Option.isSome_none,
        Bool.false_eq_true, if_false]
      rw [if_neg (by omega : ¬(p.symbol_table_bytes_used + 2 > 64))]
      simp [lookupA_setA_self]
    · intro hfull
      simp only [get_operand_value, htl]
      rw [if_neg hguard]
      simp only [ensure_symbol_table_slot, hnone, Option.isSome_none,
        Bool.false_eq_true, if_false]
      rw [if_pos (by omega : p.symbol_table_bytes_used + 2 > 64)]
  · intro cfg p t p' hb h
    exact step_bytes h hb

/-- C2 witness: on a fresh process the identifier operand `y` is auto-created
for 2 bytes; and a concrete completed step keeps the 64-byte cap. -/
theorem c2_symbol_table_accounting_witness :
    get_operand_value "y" emptyProc =
      some (0, { emptyProc with
          symbol_table_bytes_used := emptyProc.symbol_table_bytes_used + 2,
          memory := setA emptyProc.memory "y" 0 }) ∧
    emptyProcDone.symbol_table_bytes_used ≤ 64 := by
  exact ⟨((c2_symbol_table_accounting.1 emptyProc "y" 'y' [] (by decide)
      (by decide) (by decide)).1 (by decide)),
    c2_symbol_table_accounting.2 fifoConfig emptyProc 0 emptyProcDone
      (by decide) (by decide)⟩

/-- C10: arithmetic saturates to `[0, 65535]`: `clamp_to_uint16` always lands
in range, `ADD x 65535 1` stores 65535, `SUBTRACT x 0 1` stores 0, and a
completed `execute_instruction` step never stores a variable value outside
`[0, 65535]` (every store clamps or writes 0). -/
theorem c10_saturation :
    (∀ v : Int, 0 ≤ clamp_to_uint16 v ∧ clamp_to_uint16 v ≤ 65535) ∧
    ((execute_instruction fifoConfig addMaxProc 0).map (fun p => lookupA p.memory "x")
      = some (some 65535)) ∧
    ((execute_instruction fifoConfig subZeroProc 0).map (fun p => lookupA p.memory "x")
      = some (some 0)) ∧
    (∀ (cfg : Config) (p : Process) (t : Nat) (p' : Process),
        memBounded p.memory →
        execute_instruction cfg p t = some p' →
        memBounded p'.memory) := by
  exact ⟨clamp_bounds, by decide, by decide,
    fun cfg p t p' hm h => step_bounded h hm⟩

/-- C10 witness: the clamp bounds at `-3`, and boundedness carried through a
concrete completed step. -/
theorem c10_saturation_witness :
    (0 ≤ clamp_to_uint16 (-3) ∧ clamp_to_uint16 (-3) ≤ 65535) ∧
    memBounded emptyProcDone.memory := by
  exact ⟨c10_saturation.1 (-3),
    c10_saturation.2.2.2 fifoConfig emptyProc 0 emptyProcDone
      (by unfold memBounded; decide) (by decide)⟩

end MO2
